import Mathlib

/-!
Shallow embedding of the targets-from-pathways pipeline.

Each definition mirrors one Python function of the repository, at the level of
already-split records (file IO and pandas plumbing are abstracted away):
lists of tab-separated fields stand for lines of the input files, rational
numbers stand for Python floats, `Except` results stand for raised exceptions,
and total functions `String → List String` stand for the Python dictionaries
whose values are lists (a key that was never inserted maps to `[]`, matching
the fact that the parsers only ever create keys with non-empty list values).
-/

namespace TFP

/-- Exceptions the embedded code can raise: `badLine` stands for the
"Bad line ..." exceptions of the parsers, `zeroDivision` for Python's built-in
ZeroDivisionError on a division by zero, and `valueError` for the ValueError
raised by filter_pathway_ids_by_pvalue when the ID column is missing. -/
inductive PyErr
  | badLine
  | zeroDivision
  | valueError
deriving DecidableEq

/-- The newline character, used by the `rstrip` steps of the parsers. -/
def newlineChar : Char := Char.ofNat 10

/-- Python's `line.rstrip` with a newline argument: remove every trailing
newline character. -/
def rstripNewline (s : String) : String :=
  String.mk ((s.toList.reverse.dropWhile (fun c => c = newlineChar)).reverse)

/-- src/data_parser.py parse_disease_pathways: reads the file, discards the
first line as a header (`f.readline()`), and collects every remaining line
with its trailing newline stripped. The file is modelled as its list of raw
lines. -/
def parse_disease_pathways (lines : List String) : List String :=
  (lines.drop 1).map rstripNewline

/-- src/reactome/data_parser.py parse_disease_pathways: same as above but with
no header skip, so every line of the file is collected. -/
def parse_disease_pathways_reactome (lines : List String) : List String :=
  lines.map rstripNewline

/-- src/data_parser.py parse_interactions (the loop body after the header
line, identical in src/network_propagation/parse_interactions.py): each record
is the list of tab-separated fields of one line. A record whose field count is
not 5 raises "Bad line in the Reactome file"; otherwise the direction field
produces a forward edge for "->", a reversed edge for "<-", and nothing for
any other value (two independent `if` statements in the source). -/
def parse_interactions : List (List String) → Except PyErr (List (String × String))
  | [] => .ok []
  | r :: rest =>
    if r.length ≠ 5 then .error .badLine
    else
      let gene1 := r.getD 0 ""
      let gene2 := r.getD 1 ""
      let direction := r.getD 3 ""
      match parse_interactions rest with
      | .error e => .error e
      | .ok es =>
          .ok (((if direction = "->" then [(gene1, gene2)] else []) ++
                (if direction = "<-" then [(gene2, gene1)] else [])) ++ es)

/-- Edge contribution of a single 5-field interaction record, stated as a
three-way case distinction on the direction field. -/
def directedEdgesOf (r : List String) : List (String × String) :=
  if r.getD 3 "" = "->" then [(r.getD 0 "", r.getD 1 "")]
  else if r.getD 3 "" = "<-" then [(r.getD 1 "", r.getD 0 "")]
  else []

/-- Python `gene.split(" ")[0]`: the first space-separated token of a string.
-/
def firstToken (s : String) : String :=
  String.mk (s.toList.takeWhile (fun c => c ≠ ' '))

/-- Insertion into a dictionary mapping keys to lists: append `v` to the list
at key `k`, creating the key when absent. Because an absent key is modelled by
the empty list, both Python branches (`append` on an existing key, fresh
one-element list otherwise) become `m k ++ [v]`. -/
def updMap (m : String → List String) (k v : String) : String → List String :=
  fun x => if x = k then m x ++ [v] else m x

/-- Loop of parse_pathway_mapping (src/data_parser.py, identically
src/reactome/data_parser.py) over the records of the mapping file, carrying
the two dictionaries being built. A record without exactly 8 tab-separated
fields raises "Bad line in the Reactome mapping file"; a record whose species
field is not "Homo sapiens" is skipped; otherwise the first token of the gene
label and the pathway ID are inserted into both dictionaries. -/
def ppmGo : List (List String) → (String → List String) → (String → List String) →
    Except PyErr ((String → List String) × (String → List String))
  | [], g2p, p2g => .ok (g2p, p2g)
  | r :: rest, g2p, p2g =>
    if r.length ≠ 8 then .error .badLine
    else if r.getD 7 "" ≠ "Homo sapiens" then ppmGo rest g2p p2g
    else
      ppmGo rest (updMap g2p (firstToken (r.getD 2 "")) (r.getD 3 ""))
        (updMap p2g (r.getD 3 "") (firstToken (r.getD 2 "")))

/-- parse_pathway_mapping: runs the record loop starting from two empty
dictionaries and returns the pair (gene2pathways, pathway2genes). -/
def parse_pathway_mapping (records : List (List String)) :
    Except PyErr ((String → List String) × (String → List String)) :=
  ppmGo records (fun _ => []) (fun _ => [])

/-- src/run.py find_overlap: `list(set(list1) & set(list2))`. The set
intersection is modelled as the deduplicated first list filtered by
membership in the second; only its length is ever used downstream, which the
arbitrary iteration order of a Python set does not affect. -/
def find_overlap (list1 list2 : List String) : List String :=
  list1.dedup.filter (fun x => decide (x ∈ list2))

/-- src/run.py calculate_scores: for every gene of `genes`, in order, score
`(d + t) / (D + T)` with `d` the size of the overlap of the gene's pathways
with the disease pathways, `t` the number of entries of the target's pathway
list whose gene list contains the gene, `D` the disease-pathway count and `T`
the length of the target's pathway list. The Python division raises
ZeroDivisionError when the denominator is zero, modelled by the explicit
test guarding the division. -/
def calculate_scores (genes : List String)
    (gene2pathways pathway2genes : String → List String)
    (disease_pathways : List String) (target : String) :
    Except PyErr (List (String × ℚ)) :=
  match genes with
  | [] => .ok []
  | gene :: rest =>
    let d := (find_overlap (gene2pathways gene) disease_pathways).length
    let target_paths := gene2pathways target
    let t := (target_paths.filter (fun path => decide (gene ∈ pathway2genes path))).length
    if disease_pathways.length + target_paths.length = 0 then .error .zeroDivision
    else
      match calculate_scores rest gene2pathways pathway2genes disease_pathways target with
      | .error e => .error e
      | .ok scores =>
          .ok ((gene, ((d : ℚ) + (t : ℚ)) /
            ((disease_pathways.length : ℚ) + (target_paths.length : ℚ))) :: scores)

/-- Worked example of the score formula: gene2pathways for disease pathway P1
with genes A, B, target pathway P2 with genes B, C, and target gene T lying on
P2. -/
def exG2p : String → List String :=
  fun g =>
    if g = "A" then ["P1"]
    else if g = "B" then ["P1", "P2"]
    else if g = "C" then ["P2"]
    else if g = "T" then ["P2"]
    else []

/-- pathway2genes of the worked example: P1 carries A and B, P2 carries B and
C. -/
def exP2g : String → List String :=
  fun p =>
    if p = "P1" then ["A", "B"]
    else if p = "P2" then ["B", "C"]
    else []

/-- One disease-target association record of the Open Targets data, with the
four columns read by the code. -/
structure Assoc where
  diseaseId : String
  targetId : String
  score : ℚ
  datatypeId : String
deriving DecidableEq

/-- Row predicate of src/functions/sid.py build_gsea_input_for_disease_id:
the record matches the requested disease ID, the optional datatype filter,
and the given target ID. -/
def assocMatches (d : String) (dt : Option String) (t : String) (a : Assoc) : Bool :=
  a.diseaseId == d &&
    (match dt with
     | none => true
     | some x => a.datatypeId == x) &&
    a.targetId == t

/-- Scores of all records matching a disease, optional datatype, and target:
the group of rows that `groupby("targetId")` forms for that target after the
disease and datatype selection. -/
def matchScores (recs : List Assoc) (d : String) (dt : Option String) (t : String) :
    List ℚ :=
  (recs.filter (assocMatches d dt t)).map (fun a => a.score)

/-- Aggregation step of build_gsea_input_for_disease_id, read pointwise:
`subset.groupby("targetId", as_index=False)["score"].max()` assigns to each
target the maximum of its matching scores (`none` when the target has no
matching record). -/
def aggScores (recs : List Assoc) (d : String) (dt : Option String) (t : String) :
    Option ℚ :=
  (matchScores recs d dt t).max?

/-- pandas `drop_duplicates(subset=["targetId"])`: keep the first row of each
target ID, in order. -/
def keepFirstByTarget (rows : List (String × ℚ)) : List (String × ℚ) :=
  rows.foldl (fun acc kv => if (acc.lookup kv.1).isSome then acc else acc ++ [kv]) []

/-- Python `dict.update`: entries of the second dictionary override entries of
the first in place, and new keys are appended in order. -/
def dictUpdate (old upd : List (String × ℚ)) : List (String × ℚ) :=
  (old.map (fun kv =>
    match upd.lookup kv.1 with
    | some v => (kv.1, v)
    | none => kv)) ++
    upd.filter (fun kv => (old.lookup kv.1).isNone)

/-- Per-file step of src/gsea/data_parser.py parse_associations_parquet:
filter the file's records on disease and datatype, keep the first occurrence
of each target ID, and turn the result into a dictionary. -/
def fileTarget2Score (file : List Assoc) (disease datatype : String) :
    List (String × ℚ) :=
  keepFirstByTarget
    ((file.filter (fun a => a.diseaseId == disease && a.datatypeId == datatype)).map
      (fun a => (a.targetId, a.score)))

/-- src/gsea/data_parser.py parse_associations_parquet over a directory of
parquet files: fold `dict.update` of the per-file dictionaries, so later files
override earlier ones. -/
def parse_associations_parquet (files : List (List Assoc)) (disease datatype : String) :
    List (String × ℚ) :=
  files.foldl (fun acc f => dictUpdate acc (fileTarget2Score f disease datatype)) []

/-- The association records of the aggregation example: two scores for target
T1 and one for target T2, all for disease D1. -/
def exAssocs : List Assoc :=
  [⟨ "D1", "T1", 3 / 10, "dt"⟩, ⟨ "D1", "T1", 9 / 10, "dt"⟩, ⟨ "D1", "T2", 1 / 2, "dt"⟩]

/-- One row of the GSEA result table. The rational fields carry the values of
the pval, qval and NES columns; whether a column is present at all is recorded
at table level. -/
structure GseaRow where
  id : String
  pval : ℚ
  qval : ℚ
  nes : ℚ
deriving DecidableEq

/-- The GSEA result DataFrame: per-column presence flags plus the rows. -/
structure GseaTable where
  hasID : Bool
  hasPval : Bool
  hasQval : Bool
  hasNES : Bool
  rows : List GseaRow
deriving DecidableEq

/-- The two warnings filter_pathway_ids_by_pvalue can print: a requested
p-value filter with no pval column, and a requested FDR filter with no qval
column. -/
inductive FilterWarning
  | pvalMissing
  | qvalMissing
deriving DecidableEq

/-- src/gsea/run_gsea.py filter_pathway_ids_by_pvalue: raise ValueError when
the ID column is absent; otherwise start from an all-true mask, AND in the
p-value test when a threshold is given and the pval column exists (else print
a warning), AND in the FDR test when a threshold is given and the qval column
exists (else print a warning), AND in NES > 0 when requested and the NES
column exists (silently skipped otherwise), and return the warnings together
with the ID column of the surviving rows in order. -/
def filter_pathway_ids_by_pvalue (df : GseaTable)
    (pval_threshold fdr_threshold : Option ℚ) (nes_positive : Bool) :
    Except PyErr (List FilterWarning × List String) :=
  if df.hasID = false then .error .valueError
  else
    let mask0 : List Bool := df.rows.map (fun _ => true)
    let maskP :=
      match pval_threshold with
      | none => mask0
      | some thr =>
        if df.hasPval then
          List.zipWith (fun b r => b && decide (r.pval ≤ thr)) mask0 df.rows
        else mask0
    let warnP : List FilterWarning :=
      match pval_threshold with
      | none => []
      | some _ => if df.hasPval then [] else [.pvalMissing]
    let maskQ :=
      match fdr_threshold with
      | none => maskP
      | some thr =>
        if df.hasQval then
          List.zipWith (fun b r => b && decide (r.qval ≤ thr)) maskP df.rows
        else maskP
    let warnQ : List FilterWarning :=
      match fdr_threshold with
      | none => []
      | some _ => if df.hasQval then [] else [.qvalMissing]
    let maskN :=
      if nes_positive && df.hasNES then
        List.zipWith (fun b r => b && decide (0 < r.nes)) maskQ df.rows
      else maskQ
    .ok (warnP ++ warnQ, ((df.rows.zip maskN).filter (fun rb => rb.2)).map (fun rb => rb.1.id))

/-- Row-wise reading of the combined filter: a row survives exactly the
logical AND of every filter whose column is present; a filter whose column is
absent is treated as untested. -/
def keepRow (df : GseaTable) (pval_threshold fdr_threshold : Option ℚ)
    (nes_positive : Bool) : GseaRow → Bool :=
  fun r =>
    (match pval_threshold, df.hasPval with
     | some thr, true => decide (r.pval ≤ thr)
     | _, _ => true) &&
    (match fdr_threshold, df.hasQval with
     | some thr, true => decide (r.qval ≤ thr)
     | _, _ => true) &&
    (if nes_positive && df.hasNES then decide (0 < r.nes) else true)

/-- The warnings the filter prints, as a function of which filters were
requested and which columns exist: one warning per p-value or FDR filter whose
column is absent, and never a warning for the NES filter. -/
def expectedWarns (df : GseaTable) (pval_threshold fdr_threshold : Option ℚ) :
    List FilterWarning :=
  (match pval_threshold, df.hasPval with
   | some _, false => [FilterWarning.pvalMissing]
   | _, _ => []) ++
  (match fdr_threshold, df.hasQval with
   | some _, false => [FilterWarning.qvalMissing]
   | _, _ => [])

/-- A one-row GSEA table with every column present except NES. -/
def exTable : GseaTable :=
  ⟨ true, true, true, false, [⟨ "P1", 1 / 100, 1 / 50, 2⟩]⟩

/-- Attach 0-based positions to a list, starting at the given index: the
pandas RangeIndex of a freshly read DataFrame. -/
def idxFrom : Nat → List α → List (Nat × α)
  | _, [] => []
  | i, x :: xs => (i, x) :: idxFrom (i + 1) xs

/-- Insertion step of a stable ascending insertion sort on (index, p-value)
pairs, ordering by the p-value component. -/
def insertAsc (x : Nat × ℚ) : List (Nat × ℚ) → List (Nat × ℚ)
  | [] => [x]
  | y :: ys => if x.2 ≤ y.2 then x :: y :: ys else y :: insertAsc x ys

/-- Stable insertion sort on (index, p-value) pairs by p-value. -/
def isort : List (Nat × ℚ) → List (Nat × ℚ)
  | [] => []
  | x :: xs => insertAsc x (isort xs)

/-- pandas `p.sort_values()`: the indexed p-values in ascending order of
p-value, each keeping its original row index. -/
def sortIndexed (p : List ℚ) : List (Nat × ℚ) := isort (idxFrom 0 p)

/-- Raw BH values in sorted order: position k (rank k+1) of the sorted list
receives `p * n / rank`. -/
def qRaw (n : Nat) (sorted : List (Nat × ℚ)) : List ℚ :=
  (idxFrom 0 sorted).map (fun ke => ke.2.2 * (n : ℚ) / ((ke.1 : ℚ) + 1))

/-- pandas `iloc[::-1].cummin().iloc[::-1]`: the running minimum taken from
the last element back to the first. -/
def tailMin : List ℚ → List ℚ
  | [] => []
  | x :: xs =>
    match tailMin xs with
    | [] => [x]
    | y :: ys => min x y :: y :: ys

/-- pandas `clip(upper=1.0)`: cap every value at 1. -/
def clip1 (l : List ℚ) : List ℚ := l.map (fun q => min q 1)

/-- pandas `reindex(res_df.index).fillna(1.0)`: rebuild the column in original
row order from (index, value) assignments, defaulting to 1. -/
def scatter (n : Nat) (asg : List (Nat × ℚ)) : List ℚ :=
  (List.range n).map (fun i => ((asg.lookup i).getD 1))

/-- src/gsea/run_gsea.py, q-value derivation in run_gsea_from_tsv: sort the
p-values ascending keeping their row indices, compute `p * n / rank` with
ranks 1..n in sorted order, take the running minimum from the largest rank
down, clip at 1, and reassign to the original row order. -/
def derive_qvals (p : List ℚ) : List ℚ :=
  let n := p.length
  let sorted := sortIndexed p
  scatter n ((sorted.map Prod.fst).zip (clip1 (tailMin (qRaw n sorted))))

/-- Minimum of a non-empty collection given as head and tail. -/
def minList (x : ℚ) (xs : List ℚ) : ℚ := xs.foldl min x

/-- Suffix minima: element k of the result is the minimum of elements k..n-1
of the input. -/
def suffMins : List ℚ → List ℚ
  | [] => []
  | x :: xs => minList x xs :: suffMins xs

/-- Textbook Benjamini-Hochberg step-up: with p-values sorted ascending, the
q-value at rank r is the minimum over all ranks j ≥ r of min(1, p_(j)·n/j),
reassigned to the original row order. -/
def bh_textbook (p : List ℚ) : List ℚ :=
  let n := p.length
  let sorted := sortIndexed p
  scatter n ((sorted.map Prod.fst).zip (suffMins (clip1 (qRaw n sorted))))

/-- Guard of the q-value derivation in run_gsea_from_tsv: the q-values are
derived from the p-values exactly when the result table has no qval column
but does have a pval column. -/
def ensure_qvals (hasQval hasPval : Bool) (p : List ℚ) : Option (List ℚ) :=
  if !hasQval && hasPval then some (derive_qvals p) else none

/-- Whitespace test used by the regex escape for whitespace. -/
def isWS (c : Char) : Bool := c.isWhitespace

/-- Leftmost match of the ID-extraction pattern (an opening bracket, one or
more non-closing-bracket characters, a closing bracket) over a character
list: at each position, a match starts iff the character is an opening
bracket followed by a non-empty run of non-closing characters and then a
closing bracket; the captured group is that run. Scanning proceeds left to
right, so the first such bracket pair wins. -/
def scanBracket : List Char → Option (List Char)
  | [] => none
  | c :: rest =>
    if c = '[' then
      let content := rest.takeWhile (fun d => !(d = ']'))
      if content.length ≠ 0 ∧ content.length < rest.length then some content
      else scanBracket rest
    else scanBracket rest

/-- ID extraction of run_gsea_from_tsv:
`str.extract` of the bracket pattern followed by `fillna("")` — the captured
group of the leftmost match, or the empty string when there is no match. -/
def extractID (label : String) : String :=
  match scanBracket label.toList with
  | some cs => String.mk cs
  | none => ""

/-- Global replacement of the name-cleaning pattern (optional whitespace, a
bracket group) by the empty string: at each position a match consumes the
whitespace run and the following bracket group when one starts there (the
run after the whitespace begins with an opening bracket, continues with a
non-empty stretch of non-closing characters, and reaches a closing bracket);
otherwise the character is kept and scanning moves one position right. -/
def stripBrackets : List Char → List Char
  | [] => []
  | c :: rest =>
    if ((c :: rest).dropWhile isWS).head? = some '[' then
      if (((c :: rest).dropWhile isWS).tail.takeWhile (fun d => !(d = ']'))).length ≠ 0 ∧
          (((c :: rest).dropWhile isWS).tail.takeWhile (fun d => !(d = ']'))).length <
            ((c :: rest).dropWhile isWS).tail.length then
        stripBrackets (((c :: rest).dropWhile isWS).tail.drop
          ((((c :: rest).dropWhile isWS).tail.takeWhile (fun d => !(d = ']'))).length + 1))
      else c :: stripBrackets rest
    else c :: stripBrackets rest
termination_by l => l.length
decreasing_by
  · have hLe : ∀ (l : List Char), (l.dropWhile isWS).length ≤ l.length := by
      intro l
      induction l with
      | nil => simp [List.dropWhile]
      | cons a as ih =>
        simp only [List.dropWhile]
        cases isWS a
        · simp
        · simp only [List.length_cons]; omega
    have h1 : ((c :: rest).dropWhile isWS).length ≤ rest.length + 1 := by
      have := hLe (c :: rest)
      simpa using this
    simp only [List.length_cons, List.length_drop, List.length_tail]
    omega
  · simp
  · simp

/-- Python `str.strip` seen from the right end: drop trailing whitespace. -/
def rstripWS : List Char → List Char
  | [] => []
  | c :: l =>
    match rstripWS l with
    | [] => if isWS c then [] else [c]
    | d :: ds => c :: d :: ds

/-- Python `str.strip`: drop trailing, then leading, whitespace. -/
def trimWS (l : List Char) : List Char :=
  (rstripWS l).dropWhile isWS

/-- Name cleaning of run_gsea_from_tsv: remove every whitespace-prefixed
bracket group from the term label, then strip surrounding whitespace. -/
def cleanTerm (label : String) : String :=
  String.mk (trimWS (stripBrackets label.toList))

/-! Theorems. -/

/-- C10: the two generations of parse_disease_pathways differ exactly on the
first input line: the src/data_parser.py version always discards the first
line as a header, so on every input its result equals the
src/reactome/data_parser.py version's result with its first element removed.
-/
theorem c10_header_refinement :
    ∀ lines : List String,
      parse_disease_pathways lines = (parse_disease_pathways_reactome lines).drop 1 := by
  intro lines
  unfold parse_disease_pathways parse_disease_pathways_reactome
  exact List.map_drop rstripNewline lines 1

/-- C4 (code check): calculate_scores has no special case for a zero
denominator D + T = 0; at a degenerate input with no disease pathways and a
target whose pathway list is empty, the division raises Python's built-in
ZeroDivisionError and no dedicated error is involved. -/
theorem c4_zero_division_propagates :
    calculate_scores ["G"] (fun _ => []) (fun _ => []) [] "T" =
      .error .zeroDivision := rfl

/-- C5: when every interaction record has exactly 5 fields, parse_interactions
raises nothing and returns, per record in order, the forward edge for
direction "->", the reversed edge for "<-", and no edge for any other
direction value. -/
theorem c5_directed_edges :
    ∀ records : List (List String), (∀ r ∈ records, r.length = 5) →
      parse_interactions records = .ok (records.flatMap directedEdgesOf) := by
  intro records h
  induction records with
  | nil => rfl
  | cons r rest ih =>
    have hr : r.length = 5 := h r (List.mem_cons_self r rest)
    have hrest := ih (fun x hx => h x (List.mem_cons_of_mem r hx))
    unfold parse_interactions
    rw [if_neg (by omega), hrest]
    simp only [List.flatMap_cons]
    unfold directedEdgesOf
    by_cases h1 : r.getD 3 "" = "->"
    · have h2 : ¬(r.getD 3 "" = "<-") := by rw [h1]; decide
      rw [if_pos h1, if_pos h1, if_neg h2]
      simp
    · rw [if_neg h1, if_neg h1]
      by_cases h2 : r.getD 3 "" = "<-"
      · rw [if_pos h2]
        simp
      · rw [if_neg h2]
        simp

/-- C5 witness: the three example records produce exactly the forward edge,
the reversed edge, and no edge. -/
theorem c5_directed_edges_witness :
    (∀ r ∈ [["A", "B", "x", "->", "0.9"], ["A", "B", "x", "<-", "0.9"],
        ["A", "B", "x", "-", "0.9"]], r.length = 5) ∧
    parse_interactions [["A", "B", "x", "->", "0.9"], ["A", "B", "x", "<-", "0.9"],
        ["A", "B", "x", "-", "0.9"]] = .ok [("A", "B"), ("B", "A")] :=
  ⟨by decide, (c5_directed_edges _ (by decide)).trans rfl⟩

/-- Helper for C6: the record loop of parse_pathway_mapping fails with the
bad-line error as soon as any record lacks exactly 8 fields, for every pair of
accumulated dictionaries. -/
theorem ppmGo_error (records : List (List String)) :
    (∃ r ∈ records, r.length ≠ 8) →
    ∀ g2p p2g, ppmGo records g2p p2g = .error .badLine := by
  induction records with
  | nil => rintro ⟨r, hr, _⟩; cases hr
  | cons a rest ih =>
    rintro ⟨r, hr, hlen⟩ g2p p2g
    unfold ppmGo
    by_cases ha : a.length = 8
    · rw [if_neg (by omega)]
      have hrest : ∃ r ∈ rest, r.length ≠ 8 := by
        rcases List.mem_cons.mp hr with h | h
        · exact absurd ha (h ▸ hlen)
        · exact ⟨r, h, hlen⟩
      by_cases hsp : a.getD 7 "" ≠ "Homo sapiens"
      · rw [if_pos hsp]; exact ih hrest _ _
      · rw [if_neg hsp]; exact ih hrest _ _
    · rw [if_pos ha]

/-- C6: a pathway-mapping record without exactly 8 tab-separated fields makes
parse_pathway_mapping raise the bad-line error, no matter how many well-formed
records precede it, so no partial index pair is ever returned. -/
theorem c6_malformed_mapping_fatal :
    ∀ records : List (List String), (∃ r ∈ records, r.length ≠ 8) →
      parse_pathway_mapping records = .error .badLine :=
  fun records h => ppmGo_error records h _ _

/-- C6 witness: a well-formed record followed by a 7-field record is fatal. -/
theorem c6_malformed_mapping_fatal_witness :
    (∃ r ∈ [["e", "g", "B", "P1", "u", "n", "ev", "Homo sapiens"],
        ["e", "g", "B", "P1", "u", "n", "ev"]], r.length ≠ 8) ∧
    parse_pathway_mapping [["e", "g", "B", "P1", "u", "n", "ev", "Homo sapiens"],
        ["e", "g", "B", "P1", "u", "n", "ev"]] = .error .badLine :=
  ⟨by decide, c6_malformed_mapping_fatal _ (by decide)⟩

/-- Helper for C9: inserting a gene/pathway pair into both dictionaries at
once preserves their mutual consistency. -/
theorem updMap_inv {g2p p2g : String → List String}
    (h : ∀ g p, p ∈ g2p g ↔ g ∈ p2g p) (gn pid : String) :
    ∀ g p, p ∈ updMap g2p gn pid g ↔ g ∈ updMap p2g pid gn p := by
  intro g p
  by_cases hg : g = gn <;> by_cases hp : p = pid
  · simp [updMap, hg, hp]
  · subst hg
    simp only [updMap, eq_self_iff_true, if_true]
    rw [if_neg hp, List.mem_append, List.mem_singleton]
    constructor
    · rintro (hmem | hmem)
      · exact (h g p).mp hmem
      · exact absurd hmem hp
    · intro hmem
      exact Or.inl ((h g p).mpr hmem)
  · subst hp
    simp only [updMap, eq_self_iff_true, if_true]
    rw [if_neg hg, List.mem_append, List.mem_singleton]
    constructor
    · intro hmem
      exact Or.inl ((h g p).mp hmem)
    · rintro (hmem | hmem)
      · exact (h g p).mpr hmem
      · exact absurd hmem hg
  · simp only [updMap, if_neg hg, if_neg hp]
    exact h g p

/-- Helper for C9: the record loop preserves mutual consistency of the two
dictionaries along every successful run. -/
theorem ppmGo_inv :
    ∀ (records : List (List String)) (g2p p2g : String → List String)
      (pr : (String → List String) × (String → List String)),
      (∀ g p, p ∈ g2p g ↔ g ∈ p2g p) → ppmGo records g2p p2g = .ok pr →
      ∀ g p, p ∈ pr.1 g ↔ g ∈ pr.2 p := by
  intro records
  induction records with
  | nil =>
    intro g2p p2g pr hinv hok
    unfold ppmGo at hok
    cases hok
    exact hinv
  | cons a rest ih =>
    intro g2p p2g pr hinv hok
    unfold ppmGo at hok
    by_cases ha : a.length ≠ 8
    · rw [if_pos ha] at hok; cases hok
    · rw [if_neg ha] at hok
      by_cases hsp : a.getD 7 "" ≠ "Homo sapiens"
      · rw [if_pos hsp] at hok
        exact ih _ _ _ hinv hok
      · rw [if_neg hsp] at hok
        exact ih _ _ _ (updMap_inv hinv _ _) hok

/-- C9: the two indexes returned by parse_pathway_mapping are mutually
consistent: a pathway P lies in gene2pathways of a gene g exactly when g lies
in pathway2genes of P. -/
theorem c9_mapping_consistent :
    ∀ (records : List (List String)) (g2p p2g : String → List String),
      parse_pathway_mapping records = .ok (g2p, p2g) →
      ∀ g p, p ∈ g2p g ↔ g ∈ p2g p :=
  fun records g2p p2g hok =>
    ppmGo_inv records _ _ (g2p, p2g) (fun g p => by simp) hok

/-- C9 witness: the consistency of the pair built from a single well-formed
record, checked at its gene and pathway. -/
theorem c9_mapping_consistent_witness :
    ("P1" ∈ updMap (fun _ => []) (firstToken "B") "P1" "B" ↔
      "B" ∈ updMap (fun _ => []) "P1" (firstToken "B") "P1") :=
  c9_mapping_consistent [["e", "g", "B", "P1", "u", "n", "ev", "Homo sapiens"]]
    (updMap (fun _ => []) (firstToken "B") "P1")
    (updMap (fun _ => []) "P1" (firstToken "B")) rfl "B" "P1"

/-- Helper for C2: the length of the modelled Python set intersection equals
the cardinality of the intersection of the corresponding finite sets. -/
theorem find_overlap_length (l1 l2 : List String) :
    (find_overlap l1 l2).length = (l1.toFinset ∩ l2.toFinset).card := by
  have hnd : (find_overlap l1 l2).Nodup := l1.nodup_dedup.filter _
  rw [← List.toFinset_card_of_nodup hnd]
  congr 1
  ext x
  simp [find_overlap, List.mem_toFinset, List.mem_dedup, Finset.mem_inter,
    List.mem_filter]

/-- Helper for C2: with a non-zero denominator, every score returned by
calculate_scores is (d + t) / (D + T), with d the number of distinct pathways
of the gene that are disease pathways, t the number of entries of the
target's pathway list whose gene list contains the gene, D the
disease-pathway count and T the target's pathway count. -/
theorem calculate_scores_formula :
    ∀ (genes : List String) (g2p p2g : String → List String)
      (dps : List String) (target : String),
      dps.length + (g2p target).length ≠ 0 →
      calculate_scores genes g2p p2g dps target =
        .ok (genes.map (fun gene =>
          (gene,
            ((((g2p gene).toFinset ∩ dps.toFinset).card : ℚ) +
              ((g2p target).countP (fun path => decide (gene ∈ p2g path)) : ℚ)) /
            ((dps.length : ℚ) + ((g2p target).length : ℚ))))) := by
  intro genes g2p p2g dps target hden
  induction genes with
  | nil => rfl
  | cons gene rest ih =>
    unfold calculate_scores
    rw [if_neg hden, ih]
    simp only [List.map_cons]
    rw [find_overlap_length, List.countP_eq_length_filter]

/-- C2: calculate_scores realises the overlap-score formula
(d + t) / (D + T), and on the worked example (disease pathway P1 with genes
A, B; target gene T on the single pathway P2 with genes B, C) gene B scores
(1 + 1) / (1 + 1) = 1. -/
theorem c2_score_formula :
    (∀ (genes : List String) (g2p p2g : String → List String)
       (dps : List String) (target : String),
       dps.length + (g2p target).length ≠ 0 →
       calculate_scores genes g2p p2g dps target =
         .ok (genes.map (fun gene =>
           (gene,
             ((((g2p gene).toFinset ∩ dps.toFinset).card : ℚ) +
               ((g2p target).countP (fun path => decide (gene ∈ p2g path)) : ℚ)) /
             ((dps.length : ℚ) + ((g2p target).length : ℚ)))))) ∧
    calculate_scores ["B"] exG2p exP2g ["P1"] "T" = .ok [("B", 1)] := by
  refine ⟨calculate_scores_formula, ?_⟩
  rw [calculate_scores_formula ["B"] exG2p exP2g ["P1"] "T" (by decide)]
  have hc : (((exG2p "B").toFinset ∩ (["P1"] : List String).toFinset).card) = 1 := by decide
  have ht : ((exG2p "T").countP (fun path => decide ("B" ∈ exP2g path))) = 1 := by decide
  have hD : ((["P1"] : List String).length) = 1 := by decide
  have hT : ((exG2p "T").length) = 1 := by decide
  simp only [List.map_cons, List.map_nil, hc, ht, hD, hT]
  norm_num

/-- C2 witness: the score formula instantiated at the worked example, with the
non-zero denominator discharged concretely. -/
theorem c2_score_formula_witness :
    ((["P1"] : List String).length + (exG2p "T").length ≠ 0) ∧
    calculate_scores ["B"] exG2p exP2g ["P1"] "T" =
      .ok ((["B"] : List String).map (fun gene =>
        (gene,
          ((((exG2p gene).toFinset ∩ (["P1"] : List String).toFinset).card : ℚ) +
            ((exG2p "T").countP (fun path => decide (gene ∈ exP2g path)) : ℚ)) /
          (((["P1"] : List String).length : ℚ) + (((exG2p "T").length : ℚ)))))) :=
  ⟨by decide, c2_score_formula.1 ["B"] exG2p exP2g ["P1"] "T" (by decide)⟩

/-- Helper for C3: characterisation of `List.max?` over the rationals — it
returns exactly a member that bounds every member from above. -/
theorem qmax?_eq_some_iff {l : List ℚ} {m : ℚ} :
    l.max? = some m ↔ m ∈ l ∧ ∀ b ∈ l, b ≤ m := by
  have hanti : Std.Antisymm (fun a b : ℚ => a ≤ b) :=
    ⟨fun hab hba => le_antisymm hab hba⟩
  exact List.max?_eq_some_iff (fun a => le_refl a) (fun a b => max_choice a b)
    (fun a b c => max_le_iff)

/-- Helper for C3: `List.max?` over the rationals is invariant under
permutation of the list. -/
theorem qmax?_perm {l l' : List ℚ} (h : l.Perm l') : l.max? = l'.max? := by
  cases hm : l.max? with
  | none =>
    have hnil : l = [] := List.max?_eq_none_iff.mp hm
    subst hnil
    rw [← h.nil_eq]
    rfl
  | some m =>
    obtain ⟨hmem, hub⟩ := qmax?_eq_some_iff.mp hm
    exact (qmax?_eq_some_iff.mpr
      ⟨h.subset hmem, fun b hb => hub b (h.symm.subset hb)⟩).symm

/-- C3 (amended): the aggregation of build_gsea_input_for_disease_id reduces
the matching records of each target by maximum — the aggregate is a matching
score that bounds all matching scores — and it is invariant under reordering
of the records; on the example records [(D1,T1,0.3), (D1,T1,0.9),
(D1,T2,0.5)] it yields 0.9 for T1 and 0.5 for T2. The claim as frozen also
covers parse_associations_parquet, which does not aggregate by maximum (see
the counterexample). -/
theorem c3_max_aggregation :
    (∀ (recs : List Assoc) (d : String) (dt : Option String) (t : String) (m : ℚ),
       aggScores recs d dt t = some m ↔
         (m ∈ matchScores recs d dt t ∧ ∀ s ∈ matchScores recs d dt t, s ≤ m)) ∧
    (∀ (recs recs' : List Assoc) (d : String) (dt : Option String) (t : String),
       recs.Perm recs' → aggScores recs d dt t = aggScores recs' d dt t) ∧
    aggScores exAssocs "D1" none "T1" = some (9 / 10) ∧
    aggScores exAssocs "D1" none "T2" = some (1 / 2) := by
  refine ⟨fun recs d dt t m => qmax?_eq_some_iff, ?_, ?_, ?_⟩
  · intro recs recs' d dt t h
    exact qmax?_perm ((h.filter _).map _)
  · show (matchScores exAssocs "D1" none "T1").max? = some (9 / 10)
    rw [show matchScores exAssocs "D1" none "T1" = [3 / 10, 9 / 10] from rfl]
    rw [show ([3 / 10, 9 / 10] : List ℚ).max? = some (max (3 / 10) (9 / 10)) from rfl]
    norm_num
  · show (matchScores exAssocs "D1" none "T2").max? = some (1 / 2)
    rfl

/-- C3 witness: permutation invariance of the aggregation applied to a
concrete swap of two records. -/
theorem c3_max_aggregation_witness :
    aggScores [⟨ "D1", "T1", 3 / 10, "dt"⟩, ⟨ "D1", "T1", 9 / 10, "dt"⟩] "D1" none "T1" =
      aggScores [⟨ "D1", "T1", 9 / 10, "dt"⟩, ⟨ "D1", "T1", 3 / 10, "dt"⟩] "D1" none "T1" :=
  c3_max_aggregation.2.1 _ _ "D1" none "T1"
    (List.Perm.swap (Assoc.mk "D1" "T1" (9 / 10) "dt") (Assoc.mk "D1" "T1" (3 / 10) "dt") [])

/-- C3 counterexample: parse_associations_parquet, one of the two aggregation
sites named by the claim, keeps the first matching occurrence of a target
within a file — on the example records it maps T1 to 0.3, not to the maximum
0.9 the claim demands. -/
theorem c3_counterexample :
    (parse_associations_parquet [exAssocs] "D1" "dt").lookup "T1" = some (3 / 10) ∧
      (3 / 10 : ℚ) ≠ 9 / 10 := by
  refine ⟨rfl, ?_⟩
  norm_num

/-- Helper for C8: ANDing a mask that is a map over the rows with a further
row test is again a map over the rows. -/
theorem zipWith_and_map (rows : List GseaRow) (f g : GseaRow → Bool) :
    List.zipWith (fun b r => b && g r) (rows.map f) rows =
      rows.map (fun r => f r && g r) := by
  induction rows with
  | nil => rfl
  | cons r rest ih => simp [ih]

/-- Helper for C8: selecting rows through a boolean mask that is a map over
the rows is ordinary filtering, preserving row order. -/
theorem select_mask (rows : List GseaRow) (f : GseaRow → Bool) :
    (((rows.zip (rows.map f)).filter (fun rb => rb.2)).map (fun rb => rb.1.id)) =
      (rows.filter f).map (fun r => r.id) := by
  induction rows with
  | nil => rfl
  | cons r rest ih =>
    simp only [List.map_cons, List.zip_cons_cons, List.filter_cons]
    cases hf : f r
    · simpa using ih
    · simpa using ih

/-- Helper for C8: selecting rows through the initial all-true mask keeps
every row. -/
theorem select_mask_replicate (rows : List GseaRow) :
    (((rows.zip (List.replicate rows.length true)).filter (fun rb => rb.2)).map
        (fun rb => rb.1.id)) =
      rows.map (fun r => r.id) := by
  induction rows with
  | nil => rfl
  | cons r rest ih => simpa [List.replicate_succ] using ih

/-- C8 (amended): with an ID column present, filter_pathway_ids_by_pvalue
never raises; it keeps exactly the rows passing the logical AND of every
requested filter whose column is present, in their original order, skipping
a requested p-value or FDR filter whose column is absent with a warning and a
requested NES filter whose column is absent silently. -/
theorem c8_filter_semantics :
    ∀ (df : GseaTable) (pthr fthr : Option ℚ) (nes : Bool),
      df.hasID = true →
      filter_pathway_ids_by_pvalue df pthr fthr nes =
        .ok (expectedWarns df pthr fthr,
          (df.rows.filter (keepRow df pthr fthr nes)).map (fun r => r.id)) := by
  intro df pthr fthr nes hid
  unfold filter_pathway_ids_by_pvalue
  rw [hid]
  rw [if_neg (by simp)]
  rcases pthr with _ | t <;> rcases fthr with _ | u <;>
    cases hP : df.hasPval <;> cases hQ : df.hasQval <;>
    cases hN : nes && df.hasNES <;>
    simp only [hP, hQ, hN, if_true, if_false, Bool.false_eq_true, ite_false, ite_true,
      zipWith_and_map] <;>
    unfold keepRow <;>
    simp [expectedWarns, hP, hQ, hN, zipWith_and_map, select_mask,
      select_mask_replicate, Bool.and_assoc]

/-- C8 counterexample: on a table without an NES column, requesting the
positive-NES filter is skipped silently — the warning list is empty, while
the claim says every requested filter whose column is absent is skipped with
a warning. The row is kept as if untested and no error is raised. -/
theorem c8_counterexample :
    filter_pathway_ids_by_pvalue exTable none none true = .ok ([], ["P1"]) := rfl

/-- C8 witness: the filter semantics applied to the concrete one-row table
with a requested p-value threshold. -/
theorem c8_filter_semantics_witness :
    exTable.hasID = true ∧
    filter_pathway_ids_by_pvalue exTable (some (1 / 20)) none false =
      .ok (expectedWarns exTable (some (1 / 20)) none,
        (exTable.rows.filter (keepRow exTable (some (1 / 20)) none false)).map
          (fun r => r.id)) :=
  ⟨rfl, c8_filter_semantics exTable (some (1 / 20)) none false rfl⟩

/-- Helper for C1: folding the minimum commutes with taking the minimum with
a further element. -/
theorem min_foldl (ys : List ℚ) :
    ∀ x y : ℚ, min x (ys.foldl min y) = ys.foldl min (min x y) := by
  induction ys with
  | nil => intro x y; rfl
  | cons z zs ih =>
    intro x y
    simp only [List.foldl_cons]
    rw [ih, min_assoc]

/-- Helper for C1: the running minimum taken from the tail equals the suffix
minima. -/
theorem tailMin_eq_suffMins : ∀ l : List ℚ, tailMin l = suffMins l := by
  intro l
  induction l with
  | nil => rfl
  | cons x xs ih =>
    cases xs with
    | nil => rfl
    | cons z zs =>
      rw [show tailMin (x :: z :: zs) =
          (match tailMin (z :: zs) with
           | [] => [x]
           | y :: ys => min x y :: y :: ys) from rfl, ih,
        show suffMins (z :: zs) = minList z zs :: suffMins zs from rfl]
      show min x (minList z zs) :: minList z zs :: suffMins zs = suffMins (x :: z :: zs)
      simp only [suffMins, minList, List.foldl_cons]
      rw [min_foldl]

/-- Helper for C1: clipping at 1 after taking suffix minima is the same as
taking suffix minima of the clipped values. -/
theorem clip1_suffMins : ∀ l : List ℚ, clip1 (suffMins l) = suffMins (clip1 l) := by
  have key : ∀ (xs : List ℚ) (x : ℚ),
      min (xs.foldl min x) 1 = (xs.map (fun q => min q 1)).foldl min (min x 1) := by
    intro xs
    induction xs with
    | nil => intro x; rfl
    | cons y ys ih =>
      intro x
      simp only [List.foldl_cons, List.map_cons]
      rw [ih]
      congr 1
      rw [min_min_min_comm, min_self]
  intro l
  induction l with
  | nil => rfl
  | cons x xs ih =>
    simp only [suffMins, clip1, List.map_cons, minList] at *
    rw [ih, key]

/-- Helper for C1: the implemented q-value derivation computes exactly the
textbook BH step-up values. -/
theorem derive_qvals_eq_textbook (p : List ℚ) : derive_qvals p = bh_textbook p := by
  show scatter p.length ((List.map Prod.fst (sortIndexed p)).zip
      (clip1 (tailMin (qRaw p.length (sortIndexed p))))) =
    scatter p.length ((List.map Prod.fst (sortIndexed p)).zip
      (suffMins (clip1 (qRaw p.length (sortIndexed p)))))
  rw [tailMin_eq_suffMins, clip1_suffMins]

/-- C1: whenever the result table has a p-value column but no q-value column,
the derived q-values are exactly the textbook Benjamini-Hochberg step-up
values (sort ascending, rank, p·n/r, running minimum from the tail, clip at
1, reassign to original order); on p = [1/100, 1/50, 3/100, 1/2] the result
is [1/25, 1/25, 1/25, 1/2], the textbook BH outcome (exact rational
arithmetic, hence within any tolerance). -/
theorem c1_bh_qvalues :
    (∀ p : List ℚ, ensure_qvals false true p = some (bh_textbook p)) ∧
    derive_qvals [1 / 100, 1 / 50, 3 / 100, 1 / 2] = [1 / 25, 1 / 25, 1 / 25, 1 / 2] := by
  constructor
  · intro p
    unfold ensure_qvals
    rw [if_pos (show (!false && true) = true from rfl)]
    rw [derive_qvals_eq_textbook]
  · norm_num [derive_qvals, sortIndexed, idxFrom, isort, insertAsc, qRaw, tailMin,
      clip1, scatter, List.range_succ, min_def, List.lookup, Option.getD,
      show ((1 : Nat) == 0) = false from rfl, show ((2 : Nat) == 0) = false from rfl,
      show ((2 : Nat) == 1) = false from rfl, show ((3 : Nat) == 0) = false from rfl,
      show ((3 : Nat) == 1) = false from rfl, show ((3 : Nat) == 2) = false from rfl]

/-- Helper for C7: the leftmost-match scan finds nothing in a label without an
opening bracket. -/
theorem scanBracket_not_mem : ∀ l : List Char, '[' ∉ l → scanBracket l = none := by
  intro l
  induction l with
  | nil => intro _; rfl
  | cons c cs ih =>
    intro h
    unfold scanBracket
    rw [if_neg (fun hc : c = '[' => h (by rw [← hc]; exact List.mem_cons_self c cs))]
    exact ih (fun hm => h (List.mem_cons_of_mem c hm))

/-- Helper for C7: the capture run of a bracket group stops exactly at the
closing bracket. -/
theorem takeWhile_until_close :
    ∀ (mid suf : List Char), (∀ c ∈ mid, c ≠ ']') →
      (mid ++ ']' :: suf).takeWhile (fun d => !(d = ']')) = mid := by
  intro mid suf
  induction mid with
  | nil =>
    intro _
    simp [List.takeWhile_cons]
  | cons a as ih =>
    intro h
    have ha : a ≠ ']' := h a (List.mem_cons_self a as)
    rw [List.cons_append, List.takeWhile_cons, if_pos (by simp [ha])]
    rw [ih (fun c hc => h c (List.mem_cons_of_mem a hc))]

/-- Helper for C7: over a label made of a bracket-free prefix followed by a
bracket group, the leftmost-match scan captures exactly the group content. -/
theorem scanBracket_append :
    ∀ (pre mid suf : List Char), '[' ∉ pre → (∀ c ∈ mid, c ≠ ']') → mid ≠ [] →
      scanBracket (pre ++ '[' :: (mid ++ ']' :: suf)) = some mid := by
  intro pre mid suf
  induction pre with
  | nil =>
    intro _ hmid hne
    rw [List.nil_append]
    unfold scanBracket
    rw [if_pos rfl]
    simp only [takeWhile_until_close mid suf hmid]
    have h1 : mid.length ≠ 0 := fun h0 => hne (List.length_eq_zero.mp h0)
    have h2 : mid.length < (mid ++ ']' :: suf).length := by
      simp [List.length_append]
    rw [if_pos ⟨h1, h2⟩]
  | cons c cs ih =>
    intro hpre hmid hne
    rw [List.cons_append]
    unfold scanBracket
    rw [if_neg (fun hc : c = '[' => hpre (by rw [← hc]; exact List.mem_cons_self c cs))]
    exact ih (fun hm => hpre (List.mem_cons_of_mem c hm)) hmid hne

/-- Helper for C7: one-step unfolding of the right whitespace strip. -/
theorem rstripWS_cons_eq (c : Char) (l : List Char) :
    rstripWS (c :: l) = (match rstripWS l with
      | [] => if isWS c then [] else [c]
      | d :: ds => c :: d :: ds) := rfl

/-- Helper for C7: the right strip erases a list exactly when the list is all
whitespace. -/
theorem rstripWS_eq_nil_iff :
    ∀ l : List Char, rstripWS l = [] ↔ ∀ x ∈ l, isWS x = true := by
  intro l
  induction l with
  | nil => simp [rstripWS]
  | cons c cs ih =>
    rw [rstripWS_cons_eq]
    cases h : rstripWS cs with
    | nil =>
      have hall : ∀ x ∈ cs, isWS x = true := ih.mp h
      show (if isWS c then [] else [c]) = ([] : List Char) ↔ _
      by_cases hc : isWS c = true
      · rw [if_pos hc]
        constructor
        · intro _ x hx
          rcases List.mem_cons.mp hx with rfl | hx'
          · exact hc
          · exact hall x hx'
        · intro _; rfl
      · rw [if_neg hc]
        constructor
        · intro habs; cases habs
        · intro hallc
          exact absurd (hallc c (List.mem_cons_self c cs)) hc
    | cons d ds =>
      show (c :: d :: ds : List Char) = [] ↔ _
      constructor
      · intro habs; cases habs
      · intro hallc
        have h0 : rstripWS cs = [] :=
          ih.mpr (fun x hx => hallc x (List.mem_cons_of_mem c hx))
        rw [h0] at h
        cases h

/-- Helper for C7: when the tail strip is non-empty the head is kept. -/
theorem rstripWS_cons_of (c : Char) {l : List Char} {d : Char} {ds : List Char}
    (h : rstripWS l = d :: ds) :
    rstripWS (c :: l) = c :: d :: ds := by
  rw [rstripWS_cons_eq, h]

/-- Helper for C7: when not everything is whitespace, the right strip of a
cons keeps the head. -/
theorem rstripWS_cons_not_all {c : Char} {l : List Char}
    (h : ¬ ∀ x ∈ c :: l, isWS x = true) :
    rstripWS (c :: l) = c :: rstripWS l := by
  cases hl : rstripWS l with
  | nil =>
    have hall : ∀ x ∈ l, isWS x = true := (rstripWS_eq_nil_iff l).mp hl
    have hc : ¬ isWS c = true := by
      intro hc
      refine h (fun x hx => ?_)
      rcases List.mem_cons.mp hx with rfl | hx'
      · exact hc
      · exact hall x hx'
    rw [rstripWS_cons_eq, hl]
    show (if isWS c then [] else [c]) = [c]
    rw [if_neg hc]
  | cons d ds =>
    rw [rstripWS_cons_of c hl]

/-- Helper for C7: the right strip is idempotent. -/
theorem rstripWS_idem : ∀ l : List Char, rstripWS (rstripWS l) = rstripWS l := by
  intro l
  induction l with
  | nil => rfl
  | cons c cs ih =>
    cases h : rstripWS cs with
    | nil =>
      by_cases hc : isWS c = true
      · have h1 : rstripWS (c :: cs) = [] := by
          rw [rstripWS_cons_eq, h]
          show (if isWS c then [] else [c]) = ([] : List Char)
          rw [if_pos hc]
        rw [h1]
        rfl
      · have h1 : rstripWS (c :: cs) = [c] := by
          rw [rstripWS_cons_eq, h]
          show (if isWS c then [] else [c]) = [c]
          rw [if_neg hc]
        rw [h1, rstripWS_cons_eq]
        show (match rstripWS ([] : List Char) with
          | [] => if isWS c then [] else [c]
          | d :: ds => c :: d :: ds) = [c]
        show (if isWS c then [] else [c]) = [c]
        rw [if_neg hc]
    | cons d ds =>
      rw [rstripWS_cons_of c h]
      have h2 : rstripWS (d :: ds) = d :: ds := by
        rw [← h, ih, h]
      rw [rstripWS_cons_of c h2]

/-- Helper for C7: on a label without an opening bracket the replacement
leaves every character in place. -/
theorem stripBrackets_not_mem : ∀ l : List Char, '[' ∉ l → stripBrackets l = l := by
  intro l
  induction l with
  | nil => intro _; rw [stripBrackets]
  | cons c cs ih =>
    intro h
    have hd : ¬ ((c :: cs).dropWhile isWS).head? = some '[' := by
      cases hAf : (c :: cs).dropWhile isWS with
      | nil => simp
      | cons d ds =>
        have hdmem : d ∈ c :: cs :=
          (List.dropWhile_sublist isWS).subset (by rw [hAf]; exact List.mem_cons_self d ds)
        have hdne : d ≠ '[' := fun hdeq => h (hdeq ▸ hdmem)
        simp [hdne]
    rw [stripBrackets, if_neg hd, ih (fun hm => h (List.mem_cons_of_mem c hm))]

/-- Helper for C7: on a label made of a bracket-free prefix followed by one
bracket group, the replacement erases the group and the whitespace before it,
leaving the right-stripped prefix. -/
theorem stripBrackets_append :
    ∀ (pre mid : List Char), '[' ∉ pre → (∀ c ∈ mid, c ≠ ']') → mid ≠ [] →
      stripBrackets (pre ++ '[' :: (mid ++ [']'])) = rstripWS pre := by
  intro pre mid
  induction pre with
  | nil =>
    intro _ hmid hne
    rw [List.nil_append, stripBrackets]
    have h0 : ('[' :: (mid ++ [']'])).dropWhile isWS = '[' :: (mid ++ [']']) := by
      rw [List.dropWhile_cons]
      simp [isWS]
    rw [h0]
    simp only [List.head?_cons, List.tail_cons]
    rw [if_true, takeWhile_until_close mid [] hmid]
    have h1 : mid.length ≠ 0 := fun h0' => hne (List.length_eq_zero.mp h0')
    have h2 : mid.length < (mid ++ [']']).length := by simp
    rw [if_pos ⟨h1, h2⟩]
    have hdrop : (mid ++ [']']).drop (mid.length + 1) = [] :=
      List.drop_eq_nil_of_le (by simp)
    rw [hdrop, stripBrackets]
    rfl
  | cons c cs ih =>
    intro hpre hmid hne
    rw [List.cons_append]
    by_cases hall : ∀ x ∈ c :: cs, isWS x = true
    · have hdw : (c :: (cs ++ '[' :: (mid ++ [']']))).dropWhile isWS
          = '[' :: (mid ++ [']']) := by
        rw [show (c :: (cs ++ '[' :: (mid ++ [']']))) =
            (c :: cs) ++ ('[' :: (mid ++ [']'])) from rfl]
        rw [List.dropWhile_append]
        rw [if_pos (by simp only [List.isEmpty_iff, List.dropWhile_eq_nil_iff]; exact hall)]
        rw [List.dropWhile_cons]
        simp [isWS]
      rw [stripBrackets, hdw]
      simp only [List.head?_cons, List.tail_cons]
      rw [if_true, takeWhile_until_close mid [] hmid]
      have h1 : mid.length ≠ 0 := fun h0' => hne (List.length_eq_zero.mp h0')
      have h2 : mid.length < (mid ++ [']']).length := by simp
      rw [if_pos ⟨h1, h2⟩]
      have hdrop : (mid ++ [']']).drop (mid.length + 1) = [] :=
        List.drop_eq_nil_of_le (by simp)
      rw [hdrop, stripBrackets]
      rw [(rstripWS_eq_nil_iff (c :: cs)).mpr hall]
    · have hne' : (c :: cs).dropWhile isWS ≠ [] := by
        rw [Ne, List.dropWhile_eq_nil_iff]
        exact hall
      rcases hA : (c :: cs).dropWhile isWS with _ | ⟨d, ds⟩
      · exact absurd hA hne'
      have hdmem : d ∈ c :: cs :=
        (List.dropWhile_sublist isWS).subset (by rw [hA]; exact List.mem_cons_self d ds)
      have hdne : d ≠ '[' := fun hdeq => hpre (hdeq ▸ hdmem)
      have hdw : (c :: (cs ++ '[' :: (mid ++ [']']))).dropWhile isWS
          = d :: (ds ++ '[' :: (mid ++ [']'])) := by
        rw [show (c :: (cs ++ '[' :: (mid ++ [']']))) =
            (c :: cs) ++ ('[' :: (mid ++ [']'])) from rfl]
        rw [List.dropWhile_append]
        rw [if_neg (by simp [List.isEmpty_iff, hA])]
        rw [hA]
        rfl
      have hd : ¬ ((c :: (cs ++ '[' :: (mid ++ [']']))).dropWhile isWS).head?
          = some '[' := by
        rw [hdw]
        simp [hdne]
      rw [stripBrackets, if_neg hd]
      rw [ih (fun hm => hpre (List.mem_cons_of_mem c hm)) hmid hne]
      rw [rstripWS_cons_not_all hall]

/-- Helper for C7: stripping whitespace twice on the right, then trimming,
is just trimming. -/
theorem trimWS_rstripWS (l : List Char) : trimWS (rstripWS l) = trimWS l := by
  unfold trimWS
  rw [rstripWS_idem]

/-- C7 (amended): the extracted pathway ID is the text inside the first
bracket pair of the term label (first bracket-free prefix, then a bracket
group with non-empty content), the empty string when the label has no
opening bracket; the cleaned name of a label ending in one bracket group is
the label's prefix with surrounding whitespace trimmed, and a label without
brackets is only whitespace-trimmed. -/
theorem c7_bracket_extraction :
    (∀ (pre mid suf : List Char), '[' ∉ pre → (∀ c ∈ mid, c ≠ ']') → mid ≠ [] →
       extractID (String.mk (pre ++ '[' :: (mid ++ ']' :: suf))) = String.mk mid) ∧
    (∀ label : String, '[' ∉ label.toList → extractID label = "") ∧
    (∀ (pre mid : List Char), '[' ∉ pre → (∀ c ∈ mid, c ≠ ']') → mid ≠ [] →
       cleanTerm (String.mk (pre ++ '[' :: (mid ++ [']']))) = String.mk (trimWS pre)) ∧
    (∀ label : String, '[' ∉ label.toList →
       cleanTerm label = String.mk (trimWS label.toList)) := by
  refine ⟨?_, ?_, ?_, ?_⟩
  · intro pre mid suf hpre hmid hne
    unfold extractID
    rw [show (String.mk (pre ++ '[' :: (mid ++ ']' :: suf))).toList
        = pre ++ '[' :: (mid ++ ']' :: suf) from rfl]
    rw [scanBracket_append pre mid suf hpre hmid hne]
  · intro label h
    unfold extractID
    rw [scanBracket_not_mem label.toList h]
  · intro pre mid hpre hmid hne
    unfold cleanTerm
    rw [show (String.mk (pre ++ '[' :: (mid ++ [']']))).toList
        = pre ++ '[' :: (mid ++ [']']) from rfl]
    rw [stripBrackets_append pre mid hpre hmid hne]
    rw [show trimWS (rstripWS pre) = trimWS pre from trimWS_rstripWS pre]
  · intro label h
    unfold cleanTerm
    rw [stripBrackets_not_mem label.toList h]

/-- C7 counterexample: on the label "X [A] [B]" the code extracts "A", the
content of the first bracket pair, while the claim demands the content "B" of
the last bracket pair. -/
theorem c7_counterexample :
    extractID "X [A] [B]" = "A" ∧ ("A" : String) ≠ "B" :=
  ⟨by decide, by decide⟩

/-- C7 witness: first-bracket extraction applied to the concrete label
"X [A] [B]" split as prefix, group content and suffix. -/
theorem c7_bracket_extraction_witness :
    extractID (String.mk (['X', ' '] ++ '[' :: (['A'] ++ ']' :: [' ', '[', 'B', ']']))) =
      String.mk ['A'] :=
  c7_bracket_extraction.1 ['X', ' '] ['A'] [' ', '[', 'B', ']']
    (by decide) (by decide) (by decide)

end TFP
